import Mathlib

/-!
Verification of the MEC-assisted PoW blockchain simulator.

This file gives a shallow embedding, over `ℚ`, of the entities and
operations of the simulator (miners, coalitions, the edge computing
provider, and the simulation engine), and proves or refutes the frozen
claims about them.  Python floats are modelled as rationals, Python
dicts keyed by identifiers as association lists, and the few random
draws as explicit parameters (a draw only matters through the branch it
selects).  Fallible or guarded code paths are embedded with the same
guards as the source.
-/

/-! ## Configuration constants (from simulation/config.py) -/

def BLOCK_REWARD_B : ℚ := 1000

def TRANSACTIONS_PER_BLOCK_I : ℕ := 10

def CONTEXT_SWITCH_OVERHEAD : ℚ := 16 / 1000

def TRUST_OVERHEAD_FACTOR : ℚ := 7 / 100

def THEFT_AMOUNT : ℚ := 20 / 100

def ECP_MAX_CAPACITY_L : ℚ := 10 ^ 10

def ECP_OPERATING_COST_C : ℚ := 1 / 2

def ECP_PRICE_MIN : ℚ := 0

def ECP_PRICE_MAX : ℚ := 450

def STACKELBERG_LEARNING_RATE : ℚ := 1 / 100

def STACKELBERG_MAX_ITERATIONS : ℕ := 100

def STACKELBERG_CONVERGENCE_THRESHOLD : ℚ := 1 / 100

def STACKELBERG_STEP_DECAY : ℚ := 95 / 100

/-- The numerical-gradient step used inside `ECP.set_optimal_price`. -/
def GRADIENT_EPSILON : ℚ := 1 / 100

/-- The floating tolerance used in `Coalition.check_definition_4`. -/
def DEF4_EPSILON : ℚ := 1 / 1000000

/-! ## ECP compute allocation (entities/ecp.py: allocate_compute, reset_load) -/

/-- Embedding of `ECP.allocate_compute`: given the capacity, the load
before the call and the requested amount, returns the amount allocated
and the load after the call. -/
def allocate_compute (capacity load nonce_range : ℚ) : ℚ × ℚ :=
  let available_capacity := capacity - load
  if available_capacity ≤ 0 then (0, load)
  else
    let allocated := min nonce_range available_capacity
    (allocated, load + allocated)

/-- One step of an allocation trace: the request, the load before the
call, the returned allocation and the load after the call. -/
structure AllocStep where
  req : ℚ
  before : ℚ
  ret : ℚ
  after : ℚ
deriving DecidableEq

/-- The trace produced by a sequence of `ECP.allocate_compute` calls
starting from a given load (`ECP.reset_load` sets the load to 0). -/
def allocTrace (capacity : ℚ) (load : ℚ) : List ℚ → List AllocStep
  | [] => []
  | r :: rs =>
    let res := allocate_compute capacity load r
    ⟨r, load, res.1, res.2⟩ :: allocTrace capacity res.2 rs

/-! ## Transactions and block handling
(entities/miner.py: Transaction, clear_transactions;
 entities/coalition.py: select_transactions_for_block;
 simulation/engine.py: handle_block_found) -/

/-- A blockchain transaction; equality in the source is by `tx_id`. -/
structure Tx where
  tx_id : ℕ
  fee : ℚ
deriving DecidableEq

/-- Insert a transaction into a list sorted by descending fee
(stable, as Python's `sorted(..., reverse=True)` is). -/
def insertByFeeDesc (t : Tx) : List Tx → List Tx
  | [] => [t]
  | u :: us => if u.fee < t.fee then t :: u :: us else u :: insertByFeeDesc t us

/-- Sort a transaction list by descending fee. -/
def sortByFeeDesc (l : List Tx) : List Tx :=
  l.foldl (fun acc t => insertByFeeDesc t acc) []

/-- Embedding of `Coalition.select_transactions_for_block`: sort the
pool by fee (descending) and take the top transactions. -/
def select_transactions_for_block (pool : List Tx) (max_transactions : ℕ) : List Tx :=
  (sortByFeeDesc pool).take max_transactions

/-- Embedding of `Miner.clear_transactions` and of the engine's
`difference_update` on the global pool: remove, by `tx_id`, every
transaction of `selected` from `l`. -/
def clear_transactions (selected : List Tx) (l : List Tx) : List Tx :=
  l.filter (fun t => ! selected.any (fun s => s.tx_id == t.tx_id))

/-- The transaction-holding state touched by
`SimulationEngine.handle_block_found`: the winning coalition's pool,
the global pool, and each miner's held transactions. -/
structure EngineTxState where
  coalitionPool : List Tx
  globalPool : List Tx
  minerTxs : List (List Tx)
deriving DecidableEq

/-- Embedding of the transaction-removal portion of
`SimulationEngine.handle_block_found`: the selected transactions are
removed from the global pool and from every miner's held set.  The
source does not touch the winning coalition's own `transaction_pool`
here (the reward-distribution part of the handler is embedded
separately as `distribute_rewards`). -/
def handle_block_found (st : EngineTxState) : EngineTxState :=
  let selected := select_transactions_for_block st.coalitionPool TRANSACTIONS_PER_BLOCK_I
  { st with
    globalPool := clear_transactions selected st.globalPool
    minerTxs := st.minerTxs.map (clear_transactions selected) }

/-! ## Block discovery (simulation/utils.py: get_block_finder;
entities/coalition.py: get_effective_hashrate) -/

/-- The per-coalition data `get_block_finder` reads: member work and
purchased ECP compute. -/
structure CoalW where
  total_work : ℚ
  ecp_compute_purchased : ℚ
deriving DecidableEq

/-- Embedding of `Coalition.get_effective_hashrate`. -/
def get_effective_hashrate (c : CoalW) : ℚ :=
  c.total_work + c.ecp_compute_purchased

/-- Embedding of `random.choices(population, weights, k=1)` for one
draw `r` uniform in `[0, total)`: cumulative-weight selection, picking
the first index whose cumulative weight strictly exceeds `r`.  Running
off the end (only possible for `r` at least the total weight) yields
`none`, matching the `IndexError` guard in the source. -/
def choicesAux : List ℚ → ℚ → Option ℕ
  | [], _ => none
  | w :: ws, r =>
    if r < w then some 0 else (choicesAux ws (r - w)).map (· + 1)

/-- Embedding of `get_block_finder`.  The Poisson draw
`random.random() < base_prob` is abstracted as the boolean
`blockFoundDraw` (its value only matters through this comparison), and
`r` is the draw used by the weighted choice.  Returns the index of the
winning coalition in `coalitions`, or `none`. -/
def get_block_finder (coalitions : List CoalW) (total_network_hashrate : ℚ)
    (difficulty : ℤ) (blockFoundDraw : Bool) (r : ℚ) : Option ℕ :=
  if total_network_hashrate ≤ 0 ∨ difficulty ≤ 0 then none
  else if ¬ blockFoundDraw then none
  else
    let hashrate_weights := coalitions.map get_effective_hashrate
    if coalitions = [] ∨ hashrate_weights.sum = 0 then none
    else choicesAux hashrate_weights r

/-! ## Reward distribution (entities/coalition.py: distribute_rewards;
entities/miner.py: receive_reward, update_utility;
simulation/utils.py: calculate_miner_utility) -/

/-- The per-member state read and written by `distribute_rewards`.
`work` is the value of `Miner.get_work_contribution(self)` for this
coalition, which the source recomputes identically at each call site
within the distribution. -/
structure MemberState where
  work : ℚ
  total_earnings : ℚ
  earnings_history : List ℚ
  current_utility : ℚ
  utility_history : List ℚ
deriving DecidableEq

/-- The coalition state read and written by `distribute_rewards`. -/
structure CoalitionState where
  members : List MemberState
  ecp_compute_purchased : ℚ
  ecp_cost_paid : ℚ
  total_rewards : ℚ
  rewards_history : List ℚ
  current_utility : ℚ
  utility_history : List ℚ
deriving DecidableEq

/-- The net reward computed by `distribute_rewards` after ECP costs
and, when smart contracts are disabled, the trust-overhead discount and
the (randomly drawn) theft discount.  The `theft` flag stands for the
draw `random.random() < THEFT_PROBABILITY`. -/
def netReward (smart_contract theft : Bool) (block_reward ecp_cost : ℚ) : ℚ :=
  let net := block_reward - ecp_cost
  if smart_contract then net
  else
    let net1 := net * (1 - TRUST_OVERHEAD_FACTOR)
    if theft then net1 * (1 - THEFT_AMOUNT) else net1

/-- Embedding of `simulation.utils.calculate_miner_utility`. -/
def calculate_miner_utility (work_contributed total_work rewards ecp_price l : ℚ) : ℚ :=
  if total_work = 0 then 0
  else max 0 ((work_contributed / total_work) * (rewards - ecp_price * l))

/-- The amount `distribute_rewards` pays to a member with work `w`
when the coalition's total work is `W` and the net reward is `net`:
`share * net` with `share = w / W if W > 0 else 0`. -/
def member_payout (W net w : ℚ) : ℚ :=
  (if 0 < W then w / W else 0) * net

/-- Embedding of `Coalition.distribute_rewards`.  The booleans stand
for the module flag `SMART_CONTRACT_ENABLED` and the theft draw. -/
def distribute_rewards (smart_contract theft : Bool)
    (block_reward ecp_price : ℚ) (c : CoalitionState) : CoalitionState :=
  let total_work := (c.members.map (·.work)).sum
  if total_work = 0 then c
  else
    let ecp_cost := ecp_price * c.ecp_compute_purchased
    let net := netReward smart_contract theft block_reward ecp_cost
    if net ≤ 0 then c
    else
      let newMembers := c.members.map (fun m =>
        let member_reward := member_payout total_work net m.work
        let u := calculate_miner_utility m.work total_work net ecp_price
                   c.ecp_compute_purchased
        { m with
          total_earnings := m.total_earnings + member_reward
          earnings_history := m.earnings_history ++ [member_reward]
          current_utility := u
          utility_history := m.utility_history ++ [u] })
      let totalU := (c.members.map (fun m =>
        calculate_miner_utility m.work total_work net ecp_price
          c.ecp_compute_purchased)).sum
      { c with
        members := newMembers
        total_rewards := c.total_rewards + block_reward
        rewards_history := c.rewards_history ++ [block_reward]
        ecp_cost_paid := c.ecp_cost_paid + ecp_cost
        current_utility := totalU
        utility_history := c.utility_history ++ [totalU] }

/-! ## Miner work contribution (entities/miner.py: get_work_contribution) -/

/-- Embedding of `Miner.get_work_contribution`: `isMember` is the test
`coalition in self.coalitions`, `alloc` the stored allocation fraction
for this coalition, `numCoalitions` the miner's membership count. -/
def get_work_contribution (isMember : Bool) (total_hashrate alloc : ℚ)
    (numCoalitions : ℕ) : ℚ :=
  if ¬ isMember then 0
  else
    let allocated_hashrate := total_hashrate * alloc
    if numCoalitions ≤ 1 then allocated_hashrate
    else
      max 0 (allocated_hashrate *
        (1 - (numCoalitions : ℚ) * CONTEXT_SWITCH_OVERHEAD))

/-! ## Miner membership and work-time allocation
(entities/miner.py: join_coalition, leave_coalition, allocate_work_time) -/

/-- The membership state of a miner: the ordered list of coalition ids
and the stored allocation mapping (an association list in the order the
source's dict comprehension builds it; the ids are kept duplicate-free
by `join_coalition`, so the association list coincides with the dict). -/
structure MinerState where
  coalition_ids : List ℕ
  allocation : List (ℕ × ℚ)
deriving DecidableEq

/-- A fresh miner: no memberships, empty allocation. -/
def initMiner : MinerState := ⟨[], []⟩

/-- Embedding of `Miner.allocate_work_time`.  `u cid` is the value of
`coalition.get_expected_member_utility(self)` for the coalition with id
`cid` at the time of the call (an arbitrary environment, since it
depends on the surrounding coalition states). -/
def allocate_work_time (u : ℕ → ℚ) (ids : List ℕ) : List (ℕ × ℚ) :=
  if ids.length = 0 then []
  else if ids.length = 1 then [(ids.headI, 1)]
  else
    let utilities := ids.map (fun c => max 0 (u c))
    let total_utility := utilities.sum
    if total_utility = 0 then
      ids.map (fun c => (c, 1 / (ids.length : ℚ)))
    else
      ids.map (fun c => (c, max 0 (u c) / total_utility))

/-- Embedding of `Miner.join_coalition`.  Membership is tested by
coalition id, as `Coalition.__eq__` compares ids. -/
def join_coalition (u : ℕ → ℚ) (cid : ℕ) (s : MinerState) : Bool × MinerState :=
  if cid ∈ s.coalition_ids then (false, s)
  else
    let ids := s.coalition_ids ++ [cid]
    (true, ⟨ids, allocate_work_time u ids⟩)

/-- Embedding of `Miner.leave_coalition`: the allocation entry is
deleted and then the whole mapping is rebuilt by
`allocate_work_time`. -/
def leave_coalition (u : ℕ → ℚ) (cid : ℕ) (s : MinerState) : Bool × MinerState :=
  if cid ∉ s.coalition_ids then (false, s)
  else
    let ids := s.coalition_ids.erase cid
    (true, ⟨ids, allocate_work_time u ids⟩)

/-- One membership operation on a miner, carrying the utility
environment in effect at the time of the call. -/
inductive MinerOp where
  | join (u : ℕ → ℚ) (cid : ℕ)
  | leave (u : ℕ → ℚ) (cid : ℕ)
  | realloc (u : ℕ → ℚ)

/-- Apply one membership operation. -/
def applyMinerOp (op : MinerOp) (s : MinerState) : MinerState :=
  match op with
  | .join u cid => (join_coalition u cid s).2
  | .leave u cid => (leave_coalition u cid s).2
  | .realloc u => ⟨s.coalition_ids, allocate_work_time u s.coalition_ids⟩

/-- Apply a sequence of membership operations. -/
def applyMinerOps : List MinerOp → MinerState → MinerState
  | [], s => s
  | op :: ops, s => applyMinerOps ops (applyMinerOp op s)

/-- The allocation invariant claimed of every miner: duplicate-free
membership ids; an empty mapping when there are no memberships; and
otherwise non-negative fractions summing to exactly 1. -/
def AllocInvariant (s : MinerState) : Prop :=
  s.coalition_ids.Nodup ∧
  (s.coalition_ids = [] → s.allocation = []) ∧
  (s.coalition_ids ≠ [] →
    (∀ p ∈ s.allocation, 0 ≤ p.2) ∧ (s.allocation.map Prod.snd).sum = 1)

/-! ## Coalition membership (entities/coalition.py: add_member, remove_member) -/

/-- The membership state of a coalition: member miner ids (ordered) and
the head miner, if any. -/
structure CoalitionMembers where
  members : List ℕ
  head_miner : Option ℕ
deriving DecidableEq

/-- Embedding of `Coalition.add_member`.  `def4Enabled` is the module
flag `DEFINITION_4_ENABLED`; `def4ok` the result of the
`check_definition_4` call (embedded separately), which the source only
consults when the flag is set and the coalition is non-empty. -/
def add_member (def4Enabled def4ok : Bool) (mid : ℕ)
    (c : CoalitionMembers) : Bool × CoalitionMembers :=
  if mid ∈ c.members then (false, c)
  else if def4Enabled ∧ c.members ≠ [] ∧ ¬ def4ok then (false, c)
  else
    let c' : CoalitionMembers := { c with members := c.members ++ [mid] }
    let c'' := if c'.head_miner = none then { c' with head_miner := some mid } else c'
    (true, c'')

/-- Embedding of `Coalition.remove_member`: a new head is elected (the
first remaining member, or none) only when the removed miner was the
head. -/
def remove_member (mid : ℕ) (c : CoalitionMembers) : Bool × CoalitionMembers :=
  if mid ∉ c.members then (false, c)
  else
    let ms := c.members.erase mid
    (true, { members := ms
             head_miner := if c.head_miner = some mid then ms.head? else c.head_miner })

/-! ## Admission check (entities/coalition.py: check_definition_4) -/

/-- Embedding of `Coalition.check_definition_4`, the admission check
actually invoked on the MERGE path (engine.py) and inside
`add_member`.  `expected_rewards` is the coalition's
`expected_rewards`, `works` the list of
`member.get_work_contribution(self)` values, `new_miner_work` the
candidate's `get_potential_work_contribution(self)`. -/
def check_definition_4 (expected_rewards : ℚ) (works : List ℚ)
    (new_miner_work : ℚ) : Bool :=
  if works = [] then true
  else
    let current_total_work := works.sum
    if current_total_work = 0 then true
    else
      let projected_total_work := current_total_work + new_miner_work
      if projected_total_work = 0 then false
      else
        works.all (fun member_work =>
          let current_share := member_work / current_total_work
          let projected_share := member_work / projected_total_work
          decide (¬ (projected_share * expected_rewards <
            current_share * expected_rewards - DEF4_EPSILON)))

/-- The admission check as the claim and the spec describe it, i.e. the
variant of simulation/utils.py's `check_definition_4`: the
expected-reward baseline is scaled up in proportion to the hashrate
increase and a 95% tolerance is applied.  `current_hashrate` and
`new_miner_hashrate` stand for the coalition's total hashrate and the
candidate's `total_hashrate`. -/
def spec_check_definition_4 (expected_rewards current_hashrate new_miner_hashrate : ℚ)
    (works : List ℚ) (new_miner_work : ℚ) : Bool :=
  let current_total_work := works.sum
  let projected_total_work := current_total_work + new_miner_work
  let current_expected_rewards :=
    if 0 < expected_rewards then expected_rewards else 1000
  let hashrate_increase_factor :=
    if 0 < current_hashrate then
      (current_hashrate + new_miner_hashrate) / current_hashrate
    else 2
  let projected_expected_rewards := current_expected_rewards * hashrate_increase_factor
  works.all (fun member_work =>
    let projected_share :=
      if 0 < projected_total_work then member_work / projected_total_work else 0
    let current_share :=
      if 0 < current_total_work then member_work / current_total_work else 0
    decide (¬ (projected_share * projected_expected_rewards <
      current_share * current_expected_rewards * (95 / 100) - DEF4_EPSILON)))

/-! ## ECP Stackelberg pricing (entities/ecp.py: set_optimal_price,
_calculate_utility_at_price; entities/coalition.py:
calculate_optimal_compute_demand) -/

/-- The per-coalition data read by the demand heuristic:
`expected_rewards`, total member work and number of members. -/
structure CoalD where
  expected_rewards : ℚ
  total_work : ℚ
  size : ℕ
deriving DecidableEq

/-- Embedding of `Coalition.calculate_optimal_compute_demand` (the
`cost` argument is unused in the source as well). -/
def calculate_optimal_compute_demand (c : CoalD) (price _cost : ℚ) : ℚ :=
  if c.expected_rewards * (1 / 2) < price then 0
  else
    let member_hashrate := c.total_work
    if member_hashrate = 0 then 0
    else
      let demand_factor := (1 / 2) / (1 + ((c.size : ℚ) - 1) * (1 / 10))
      let optimal_compute := member_hashrate * demand_factor
      let expected_cost := optimal_compute * price
      let expected_benefit := c.expected_rewards * (1 / 5)
      let optimal_compute' :=
        if expected_benefit < expected_cost then
          (if 0 < price then expected_benefit / price else 0)
        else optimal_compute
      max 0 optimal_compute'

/-- Embedding of `ECP._calculate_utility_at_price`: simulated demand,
capped at capacity, times the margin; clamped at zero. -/
def utility_at_price (coalitions : List CoalD) (price : ℚ) : ℚ :=
  let total_demand := (coalitions.map
    (fun c => calculate_optimal_compute_demand c price ECP_OPERATING_COST_C)).sum
  let capped := min total_demand ECP_MAX_CAPACITY_L
  max 0 ((price - ECP_OPERATING_COST_C) * capped)

/-- The gradient-ascent loop of `ECP.set_optimal_price`, with the
iteration count as fuel.  The convergence test happens before the step,
so an early break returns the unclamped current price. -/
def stackelbergLoop (coalitions : List CoalD) : ℕ → ℚ → ℚ → ℚ
  | 0, price, _ => price
  | fuel + 1, price, learning_rate =>
    let current_utility := utility_at_price coalitions price
    let utility_plus := utility_at_price coalitions (price + GRADIENT_EPSILON)
    let gradient := (utility_plus - current_utility) / GRADIENT_EPSILON
    if |gradient| < STACKELBERG_CONVERGENCE_THRESHOLD then price
    else
      let stepped := price + learning_rate * gradient
      let clamped := max ECP_PRICE_MIN (min ECP_PRICE_MAX stepped)
      stackelbergLoop coalitions fuel clamped (learning_rate * STACKELBERG_STEP_DECAY)

/-- Embedding of `ECP.set_optimal_price`: returns the provider's price
after the call, given the price before it.  With no coalitions the
method returns immediately and the price is untouched. -/
def set_optimal_price (coalitions : List CoalD) (price_per_hash : ℚ) : ℚ :=
  if coalitions = [] then price_per_hash
  else stackelbergLoop coalitions STACKELBERG_MAX_ITERATIONS price_per_hash
    STACKELBERG_LEARNING_RATE

/-! ## Concrete states used by witnesses and counterexamples -/

/-- A coalition state with one member of work 1, used by witnesses. -/
def sampleCoalition : CoalitionState :=
  { members := [{ work := 1, total_earnings := 0, earnings_history := []
                  current_utility := 0, utility_history := [] }]
    ecp_compute_purchased := 0, ecp_cost_paid := 0, total_rewards := 0
    rewards_history := [], current_utility := 0, utility_history := [] }

/-- A coalition state whose single member has zero work. -/
def zeroWorkCoalition : CoalitionState :=
  { members := [{ work := 0, total_earnings := 3, earnings_history := [3]
                  current_utility := 2, utility_history := [2] }]
    ecp_compute_purchased := 5, ecp_cost_paid := 1, total_rewards := 7
    rewards_history := [7], current_utility := 2, utility_history := [2] }

/-- A transaction state in which transaction 1 sits in the winning
coalition's pool, the global pool and one miner's held set. -/
def sampleTxState : EngineTxState :=
  { coalitionPool := [⟨1, 5⟩], globalPool := [⟨1, 5⟩, ⟨2, 3⟩]
    minerTxs := [[⟨1, 5⟩], [⟨2, 3⟩]] }

/-! ## Helper lemmas about list sums -/

theorem list_sum_map_div {α : Type} (f : α → ℚ) (l : List α) (d : ℚ) :
    (l.map (fun x => f x / d)).sum = (l.map f).sum / d := by
  induction l with
  | nil => simp
  | cons a t ih => simp [ih, add_div]

theorem list_sum_map_mul {α : Type} (f : α → ℚ) (l : List α) (q : ℚ) :
    (l.map (fun x => f x * q)).sum = (l.map f).sum * q := by
  induction l with
  | nil => simp
  | cons a t ih => simp [ih, add_mul]

theorem list_sum_map_add {α : Type} (f g : α → ℚ) (l : List α) :
    (l.map (fun x => f x + g x)).sum = (l.map f).sum + (l.map g).sum := by
  induction l with
  | nil => simp
  | cons a t ih => simp [ih]; ring

theorem list_sum_map_const {α : Type} (l : List α) (q : ℚ) :
    (l.map (fun _ => q)).sum = (l.length : ℚ) * q := by
  induction l with
  | nil => simp
  | cons a t ih => simp [ih]; ring

/-- The amounts `distribute_rewards` pays sum to the net reward when
the total work is positive. -/
theorem member_payout_sum (net : ℚ) (l : List ℚ) (h : 0 < l.sum) :
    (l.map (fun w => member_payout l.sum net w)).sum = net := by
  have hpay : ∀ w, member_payout l.sum net w = w / l.sum * net := by
    intro w
    unfold member_payout
    rw [if_pos h]
  simp only [hpay]
  have h1 : (l.map (fun w => w / l.sum * net)).sum
      = (l.map (fun w => w / l.sum)).sum * net :=
    list_sum_map_mul (fun w => w / l.sum) l net
  have h2 : (l.map (fun w => id w / l.sum)).sum = (l.map id).sum / l.sum :=
    list_sum_map_div id l l.sum
  simp only [id] at h2
  rw [h1, h2, List.map_id, div_self (ne_of_gt h), one_mul]

/-! ## C7: zero total work makes reward distribution a no-op -/

/-- Claim C7: for a coalition whose total member work is zero,
`distribute_rewards` returns without changing any state: members'
earnings, histories and utilities, and the coalition's totals and
histories, are all unchanged. -/
theorem claim_C7_zero_work_noop (smart_contract theft : Bool)
    (block_reward ecp_price : ℚ) (c : CoalitionState)
    (h : (c.members.map (·.work)).sum = 0) :
    distribute_rewards smart_contract theft block_reward ecp_price c = c := by
  unfold distribute_rewards
  rw [if_pos h]

/-- Witness for C7 at a concrete coalition whose member has zero work. -/
theorem claim_C7_witness :
    (zeroWorkCoalition.members.map (·.work)).sum = 0 ∧
    distribute_rewards true false 7 2 zeroWorkCoalition = zeroWorkCoalition :=
  ⟨by simp [zeroWorkCoalition],
   claim_C7_zero_work_noop true false 7 2 zeroWorkCoalition (by simp [zeroWorkCoalition])⟩

/-! ## C1: reward distribution conserves the net reward -/

/-- Claim C1: when the total member work is positive and the computed
net reward (block reward minus ECP cost, after any trust-overhead and
theft discounts) is positive, `distribute_rewards` pays each member a
non-negative amount via `receive_reward`, and the amounts sum to
exactly the net reward (so total earnings grow by the net reward). -/
theorem claim_C1_reward_conservation (smart_contract theft : Bool)
    (block_reward ecp_price : ℚ) (c : CoalitionState)
    (hw : ∀ m ∈ c.members, 0 ≤ m.work)
    (hW : 0 < (c.members.map (·.work)).sum)
    (hnet : 0 < netReward smart_contract theft block_reward
      (ecp_price * c.ecp_compute_purchased)) :
    (((distribute_rewards smart_contract theft block_reward ecp_price c).members.map
        (·.total_earnings)).sum
      = (c.members.map (·.total_earnings)).sum
        + netReward smart_contract theft block_reward
            (ecp_price * c.ecp_compute_purchased)) ∧
    ∀ m ∈ c.members,
      0 ≤ member_payout ((c.members.map (·.work)).sum)
            (netReward smart_contract theft block_reward
              (ecp_price * c.ecp_compute_purchased)) m.work := by
  have hWne : (c.members.map (·.work)).sum ≠ 0 := ne_of_gt hW
  have hnet' : ¬ netReward smart_contract theft block_reward
      (ecp_price * c.ecp_compute_purchased) ≤ 0 := not_le.mpr hnet
  constructor
  · simp only [distribute_rewards, if_neg hWne, if_neg hnet', List.map_map,
      Function.comp_def]
    have heq := member_payout_sum
      (netReward smart_contract theft block_reward
        (ecp_price * c.ecp_compute_purchased))
      (c.members.map (·.work)) hW
    simp only [List.map_map, Function.comp_def] at heq
    rw [list_sum_map_add (·.total_earnings)
      (fun m => member_payout ((c.members.map (·.work)).sum)
        (netReward smart_contract theft block_reward
          (ecp_price * c.ecp_compute_purchased)) m.work) c.members, heq]
  · intro m hm
    unfold member_payout
    rw [if_pos hW]
    exact mul_nonneg (div_nonneg (hw m hm) (le_of_lt hW)) (le_of_lt hnet)

/-- Witness for C1 at a concrete one-member coalition, block reward 10,
ECP price 0. -/
theorem claim_C1_witness :
    (∀ m ∈ sampleCoalition.members, 0 ≤ m.work) ∧
    (0 < (sampleCoalition.members.map (·.work)).sum) ∧
    (0 < netReward true false 10 (0 * sampleCoalition.ecp_compute_purchased)) ∧
    ((((distribute_rewards true false 10 0 sampleCoalition).members.map
        (·.total_earnings)).sum
      = (sampleCoalition.members.map (·.total_earnings)).sum
        + netReward true false 10 (0 * sampleCoalition.ecp_compute_purchased)) ∧
     ∀ m ∈ sampleCoalition.members,
       0 ≤ member_payout ((sampleCoalition.members.map (·.work)).sum)
             (netReward true false 10 (0 * sampleCoalition.ecp_compute_purchased))
             m.work) :=
  ⟨by norm_num [sampleCoalition], by norm_num [sampleCoalition],
    by norm_num [netReward, sampleCoalition],
    claim_C1_reward_conservation true false 10 0 sampleCoalition
      (by norm_num [sampleCoalition]) (by norm_num [sampleCoalition])
      (by norm_num [netReward, sampleCoalition])⟩

/-! ## C2: the work-time allocation invariant -/

/-- `allocate_work_time` rebuilds the whole mapping, and its output has
non-negative fractions summing to exactly 1 whenever the membership
list is non-empty. -/
theorem allocate_work_time_invariant (u : ℕ → ℚ) (ids : List ℕ) (h : ids ≠ []) :
    (∀ p ∈ allocate_work_time u ids, 0 ≤ p.2) ∧
    ((allocate_work_time u ids).map Prod.snd).sum = 1 := by
  have hlen0 : ids.length ≠ 0 := by
    simpa using fun hc => h (List.length_eq_zero.mp hc)
  by_cases hlen1 : ids.length = 1
  · constructor
    · intro p hp
      simp [allocate_work_time, hlen0, hlen1] at hp
      rw [hp]
      norm_num
    · simp [allocate_work_time, hlen0, hlen1]
  · have hcast : ((ids.length : ℚ)) ≠ 0 := by
      exact_mod_cast hlen0
    by_cases htot : (ids.map (fun c => max 0 (u c))).sum = 0
    · have halloc : allocate_work_time u ids
          = ids.map (fun c => (c, 1 / (ids.length : ℚ))) := by
        simp [allocate_work_time, hlen0, hlen1, htot]
      constructor
      · intro p hp
        rw [halloc] at hp
        obtain ⟨c, _, rfl⟩ := List.mem_map.mp hp
        positivity
      · rw [halloc]
        simp only [List.map_map, Function.comp_def]
        rw [list_sum_map_const ids (1 / (ids.length : ℚ))]
        field_simp
    · have htotpos : 0 < (ids.map (fun c => max 0 (u c))).sum := by
        rcases lt_or_eq_of_le (List.sum_nonneg (by
          intro x hx
          obtain ⟨c, _, rfl⟩ := List.mem_map.mp hx
          exact le_max_left 0 (u c))) with h1 | h1
        · exact h1
        · exact absurd h1.symm htot
      have halloc : allocate_work_time u ids
          = ids.map (fun c => (c, max 0 (u c) / (ids.map (fun c => max 0 (u c))).sum)) := by
        simp [allocate_work_time, hlen0, hlen1, htot]
      constructor
      · intro p hp
        rw [halloc] at hp
        obtain ⟨c, _, rfl⟩ := List.mem_map.mp hp
        exact div_nonneg (le_max_left 0 (u c)) (le_of_lt htotpos)
      · rw [halloc]
        simp only [List.map_map, Function.comp_def]
        rw [list_sum_map_div (fun c => max 0 (u c)) ids
          ((ids.map (fun c => max 0 (u c))).sum)]
        exact div_self htot

/-- Each membership operation preserves the allocation invariant. -/
theorem applyMinerOp_invariant (op : MinerOp) (s : MinerState)
    (h : AllocInvariant s) : AllocInvariant (applyMinerOp op s) := by
  obtain ⟨hnd, hemp, hne⟩ := h
  have hAllocEmpty : ∀ u : ℕ → ℚ, allocate_work_time u [] = [] := by
    intro u
    simp [allocate_work_time]
  cases op with
  | join u cid =>
    simp only [applyMinerOp, join_coalition]
    by_cases hc : cid ∈ s.coalition_ids
    · rw [if_pos hc]
      exact ⟨hnd, hemp, hne⟩
    · rw [if_neg hc]
      have hne' : s.coalition_ids ++ [cid] ≠ [] := by simp
      have hinv := allocate_work_time_invariant u (s.coalition_ids ++ [cid]) hne'
      refine ⟨?_, ?_, ?_⟩
      · exact List.Nodup.append hnd (List.nodup_singleton cid)
          (by intro a ha hb; simp at hb; subst hb; exact hc ha)
      · intro hcon
        exact absurd hcon hne'
      · intro _
        exact hinv
  | leave u cid =>
    simp only [applyMinerOp, leave_coalition]
    by_cases hc : cid ∉ s.coalition_ids
    · rw [if_pos hc]
      exact ⟨hnd, hemp, hne⟩
    · rw [if_neg hc]
      have hnd' : (s.coalition_ids.erase cid).Nodup :=
        hnd.sublist (s.coalition_ids.erase_sublist cid)
      by_cases hids : s.coalition_ids.erase cid = []
      · refine ⟨hnd', ?_, ?_⟩
        · intro _
          rw [hids]
          exact hAllocEmpty u
        · intro hcon
          exact absurd hids hcon
      · have hinv := allocate_work_time_invariant u (s.coalition_ids.erase cid) hids
        refine ⟨hnd', ?_, ?_⟩
        · intro hcon
          exact absurd hcon hids
        · intro _
          exact hinv
  | realloc u =>
    simp only [applyMinerOp]
    by_cases hids : s.coalition_ids = []
    · refine ⟨hnd, ?_, ?_⟩
      · intro _
        rw [hids]
        exact hAllocEmpty u
      · intro hcon
        exact absurd hids hcon
    · have hinv := allocate_work_time_invariant u s.coalition_ids hids
      refine ⟨hnd, ?_, ?_⟩
      · intro hcon
        exact absurd hcon hids
      · intro _
        exact hinv

/-- Claim C2: after any sequence of `join_coalition`,
`leave_coalition` and `allocate_work_time` operations starting from a
fresh miner, the allocation mapping is empty when the miner has no
memberships, and otherwise its fractions are non-negative and sum to
exactly 1 (the rational model is exact, so no floating tolerance is
needed); the membership ids also stay duplicate-free, which makes the
association-list model agree with the source's dict. -/
theorem claim_C2_allocation_invariant (ops : List MinerOp) :
    AllocInvariant (applyMinerOps ops initMiner) := by
  have hinit : AllocInvariant initMiner :=
    ⟨List.nodup_nil, fun _ => rfl, fun hne => absurd rfl hne⟩
  have main : ∀ (l : List MinerOp) (s : MinerState),
      AllocInvariant s → AllocInvariant (applyMinerOps l s) := by
    intro l
    induction l with
    | nil => intro s hs; exact hs
    | cons op rest ih =>
      intro s hs
      exact ih _ (applyMinerOp_invariant op s hs)
  exact main ops initMiner hinit

/-! ## C10: membership operations are no-ops on invalid input -/

/-- Claim C10: `join_coalition` returns `False` and changes nothing
when the coalition is already a membership; `leave_coalition` returns
`False` and changes nothing when it is not; `add_member` returns
`False` and changes nothing when the miner is already a member;
`remove_member` returns `False` and changes nothing (head included)
when the miner is not a member. -/
theorem claim_C10_invalid_membership_noops (u : ℕ → ℚ) (cid cid' mid mid' : ℕ)
    (s : MinerState) (c : CoalitionMembers) (def4Enabled def4ok : Bool) :
    (cid ∈ s.coalition_ids → join_coalition u cid s = (false, s)) ∧
    (cid' ∉ s.coalition_ids → leave_coalition u cid' s = (false, s)) ∧
    (mid ∈ c.members → add_member def4Enabled def4ok mid c = (false, c)) ∧
    (mid' ∉ c.members → remove_member mid' c = (false, c)) := by
  refine ⟨?_, ?_, ?_, ?_⟩
  · intro h
    simp [join_coalition, h]
  · intro h
    simp [leave_coalition, h]
  · intro h
    simp [add_member, h]
  · intro h
    simp [remove_member, h]

/-- A concrete miner state with one membership, for the C10 witness. -/
def sampleMinerState : MinerState := ⟨[3], [(3, 1)]⟩

/-- A concrete coalition membership state, for the C10 witness. -/
def sampleCoalitionMembers : CoalitionMembers := ⟨[5], some 5⟩

/-- Witness for C10 at concrete states: joining coalition 3 again,
leaving unknown coalition 4, re-adding member 5, removing unknown
member 7. -/
theorem claim_C10_witness :
    (3 ∈ sampleMinerState.coalition_ids ∧
      join_coalition (fun _ => 0) 3 sampleMinerState = (false, sampleMinerState)) ∧
    (4 ∉ sampleMinerState.coalition_ids ∧
      leave_coalition (fun _ => 0) 4 sampleMinerState = (false, sampleMinerState)) ∧
    (5 ∈ sampleCoalitionMembers.members ∧
      add_member true true 5 sampleCoalitionMembers = (false, sampleCoalitionMembers)) ∧
    (7 ∉ sampleCoalitionMembers.members ∧
      remove_member 7 sampleCoalitionMembers = (false, sampleCoalitionMembers)) := by
  have h := claim_C10_invalid_membership_noops (fun _ => 0) 3 4 5 7
    sampleMinerState sampleCoalitionMembers true true
  refine ⟨⟨by decide, h.1 (by decide)⟩, ⟨by decide, h.2.1 (by decide)⟩,
    ⟨by decide, h.2.2.1 (by decide)⟩, ⟨by decide, h.2.2.2 (by decide)⟩⟩

/-! ## C3: the admission check actually applied on MERGE -/

/-- Counterexample to C3: for a one-member coalition with member work
100, expected rewards 1000, total hashrate 100, and a candidate with
potential work 100 and hashrate 100, the check described by the claim
(95% tolerance, hashrate-scaled baseline) passes, but the check the
code applies on the MERGE path, `Coalition.check_definition_4`,
rejects the candidate. -/
theorem claim_C3_counterexample :
    check_definition_4 1000 [100] 100 = false ∧
    spec_check_definition_4 1000 100 100 [100] 100 = true := by
  constructor
  · norm_num [check_definition_4, DEF4_EPSILON]
  · norm_num [spec_check_definition_4, DEF4_EPSILON]

/-- Claim C3 as amended: the admission check applied on the MERGE path
passes if and only if the coalition has no members, or its current
total work is zero, or the projected total work is non-zero and every
member's projected share-based utility (with the expected-reward
baseline held constant — no hashrate scaling and no 95% factor) is at
least its current share-based utility minus the 1e-6 epsilon. -/
theorem claim_C3_admission_check_iff (expected_rewards : ℚ) (works : List ℚ)
    (new_miner_work : ℚ) :
    check_definition_4 expected_rewards works new_miner_work = true ↔
      works = [] ∨ works.sum = 0 ∨
        (works.sum + new_miner_work ≠ 0 ∧
          ∀ w ∈ works,
            w / works.sum * expected_rewards - DEF4_EPSILON ≤
              w / (works.sum + new_miner_work) * expected_rewards) := by
  unfold check_definition_4
  by_cases h1 : works = []
  · simp [h1]
  · rw [if_neg h1]
    by_cases h2 : works.sum = 0
    · simp [h1, h2]
    · rw [if_neg h2]
      by_cases h3 : works.sum + new_miner_work = 0
      · simp [h1, h2, h3]
      · rw [if_neg h3]
        simp only [List.all_eq_true, decide_eq_true_eq, not_lt, h1, h2, h3,
          false_or, ne_eq, not_false_iff, true_and]

/-! ## C4: the pricing loop and the price band -/

/-- The gradient-ascent loop either breaks before taking any step
(returning the incoming price unchanged and unclamped) or returns a
price inside the configured band. -/
theorem stackelbergLoop_band (coalitions : List CoalD) :
    ∀ (fuel : ℕ) (price learning_rate : ℚ),
      stackelbergLoop coalitions fuel price learning_rate = price ∨
        (ECP_PRICE_MIN ≤ stackelbergLoop coalitions fuel price learning_rate ∧
          stackelbergLoop coalitions fuel price learning_rate ≤ ECP_PRICE_MAX) := by
  intro fuel
  induction fuel with
  | zero =>
    intro price learning_rate
    left
    rfl
  | succ k ih =>
    intro price learning_rate
    simp only [stackelbergLoop]
    by_cases hconv : |(utility_at_price coalitions (price + GRADIENT_EPSILON) -
        utility_at_price coalitions price) / GRADIENT_EPSILON| <
        STACKELBERG_CONVERGENCE_THRESHOLD
    · rw [if_pos hconv]
      left
      rfl
    · rw [if_neg hconv]
      right
      generalize price + learning_rate *
        ((utility_at_price coalitions (price + GRADIENT_EPSILON) -
          utility_at_price coalitions price) / GRADIENT_EPSILON) = stepped
      have hlo : ECP_PRICE_MIN ≤ max ECP_PRICE_MIN (min ECP_PRICE_MAX stepped) :=
        le_max_left _ _
      have hhi : max ECP_PRICE_MIN (min ECP_PRICE_MAX stepped) ≤ ECP_PRICE_MAX :=
        max_le (by norm_num [ECP_PRICE_MIN, ECP_PRICE_MAX]) (min_le_left _ _)
      rcases ih (max ECP_PRICE_MIN (min ECP_PRICE_MAX stepped))
          (learning_rate * STACKELBERG_STEP_DECAY) with h | h
      · rw [h]
        exact ⟨hlo, hhi⟩
      · exact h

/-- Counterexample to C4: with an empty coalition list
`set_optimal_price` returns immediately, so a starting price of 1000
survives outside the configured band `[0, 450]`. -/
theorem claim_C4_counterexample :
    ¬ set_optimal_price [] 1000 ≤ ECP_PRICE_MAX := by
  norm_num [set_optimal_price, ECP_PRICE_MAX]

/-- Claim C4 as amended: after `set_optimal_price`, the price either
lies in the configured band `[ECP_PRICE_MIN, ECP_PRICE_MAX]` or equals
the starting price unchanged — the latter occurs when the coalition
list is empty or when the convergence test fires before the first
gradient step, both of which skip the clamping. -/
theorem claim_C4_price_band_or_unchanged (coalitions : List CoalD) (price : ℚ) :
    set_optimal_price coalitions price = price ∨
      (ECP_PRICE_MIN ≤ set_optimal_price coalitions price ∧
        set_optimal_price coalitions price ≤ ECP_PRICE_MAX) := by
  unfold set_optimal_price
  by_cases h : coalitions = []
  · rw [if_pos h]
    left
    rfl
  · rw [if_neg h]
    exact stackelbergLoop_band coalitions STACKELBERG_MAX_ITERATIONS price
      STACKELBERG_LEARNING_RATE

/-! ## C5: compute allocation never exceeds capacity -/

/-- Generalized allocation-trace invariant: starting from any load not
exceeding capacity, every call in the trace returns
`min(request, capacity - load_before)` when capacity remains and `0`
when none remains, the load grows by exactly the returned amount, and
it never exceeds capacity. -/
theorem allocTrace_invariant (capacity : ℚ) :
    ∀ (reqs : List ℚ) (load : ℚ), load ≤ capacity →
      ∀ e ∈ allocTrace capacity load reqs,
        e.after ≤ capacity ∧
        (0 < capacity - e.before → e.ret = min e.req (capacity - e.before)) ∧
        (capacity - e.before ≤ 0 → e.ret = 0) ∧
        e.after = e.before + e.ret := by
  intro reqs
  induction reqs with
  | nil =>
    intro load _ e he
    simp [allocTrace] at he
  | cons r rs ih =>
    intro load hload e he
    have hstep : (allocate_compute capacity load r).2 ≤ capacity ∧
        (0 < capacity - load →
          (allocate_compute capacity load r).1 = min r (capacity - load)) ∧
        (capacity - load ≤ 0 → (allocate_compute capacity load r).1 = 0) ∧
        (allocate_compute capacity load r).2
          = load + (allocate_compute capacity load r).1 := by
      unfold allocate_compute
      by_cases hav : capacity - load ≤ 0
      · rw [if_pos hav]
        refine ⟨hload, ?_, fun _ => rfl, by ring⟩
        intro hpos
        exact absurd hpos (not_lt.mpr hav)
      · rw [if_neg hav]
        refine ⟨?_, fun _ => rfl, fun hc => absurd hc hav, rfl⟩
        show load + min r (capacity - load) ≤ capacity
        have hmin : min r (capacity - load) ≤ capacity - load := min_le_right _ _
        linarith
    rw [allocTrace] at he
    rcases List.mem_cons.mp he with rfl | htail
    · exact hstep
    · exact ih (allocate_compute capacity load r).2 hstep.1 e htail

/-- Claim C5: starting from a reset load, for every sequence of
`allocate_compute` calls with non-negative requests, each call returns
exactly `min(request, total_capacity - load_before)` when capacity
remains and `0.0` when none remains, and after every call the load is
at most the total capacity (so unmet demand is never granted). -/
theorem claim_C5_allocation_bounded (reqs : List ℚ)
    (_hreqs : ∀ r ∈ reqs, 0 ≤ r) :
    ∀ e ∈ allocTrace ECP_MAX_CAPACITY_L 0 reqs,
      e.after ≤ ECP_MAX_CAPACITY_L ∧
      (0 < ECP_MAX_CAPACITY_L - e.before →
        e.ret = min e.req (ECP_MAX_CAPACITY_L - e.before)) ∧
      (ECP_MAX_CAPACITY_L - e.before ≤ 0 → e.ret = 0) ∧
      e.after = e.before + e.ret :=
  allocTrace_invariant ECP_MAX_CAPACITY_L reqs 0
    (by norm_num [ECP_MAX_CAPACITY_L])

/-- Witness for C5: two requests of 6 GH/s against the 10 GH/s
capacity; the second is only partially granted. -/
theorem claim_C5_witness :
    (∀ r ∈ [(6 * 10 ^ 9 : ℚ), 6 * 10 ^ 9], 0 ≤ r) ∧
    (∀ e ∈ allocTrace ECP_MAX_CAPACITY_L 0 [(6 * 10 ^ 9 : ℚ), 6 * 10 ^ 9],
      e.after ≤ ECP_MAX_CAPACITY_L ∧
      (0 < ECP_MAX_CAPACITY_L - e.before →
        e.ret = min e.req (ECP_MAX_CAPACITY_L - e.before)) ∧
      (ECP_MAX_CAPACITY_L - e.before ≤ 0 → e.ret = 0) ∧
      e.after = e.before + e.ret) :=
  ⟨by norm_num, claim_C5_allocation_bounded [(6 * 10 ^ 9 : ℚ), 6 * 10 ^ 9]
    (by norm_num)⟩

/-! ## C6: which pools a mined block's transactions leave -/

/-- Counterexample to C6: transaction 1 is selected for the block, yet
after `handle_block_found` it is still in the winning coalition's own
`transaction_pool` (the handler only purges the global pool and the
miners' held sets). -/
theorem claim_C6_counterexample :
    (⟨1, 5⟩ : Tx) ∈ select_transactions_for_block sampleTxState.coalitionPool
      TRANSACTIONS_PER_BLOCK_I ∧
    (⟨1, 5⟩ : Tx) ∈ (handle_block_found sampleTxState).coalitionPool := by
  constructor
  · norm_num [select_transactions_for_block, sortByFeeDesc, insertByFeeDesc,
      sampleTxState, TRANSACTIONS_PER_BLOCK_I]
  · norm_num [handle_block_found, sampleTxState]

/-- Every transaction of `selected` is absent (by id) from a list
filtered by `clear_transactions`. -/
theorem clear_transactions_removes (selected l : List Tx) (t : Tx)
    (ht : t ∈ selected) :
    ∀ x ∈ clear_transactions selected l, x.tx_id ≠ t.tx_id := by
  intro x hx
  simp only [clear_transactions, List.mem_filter, Bool.not_eq_true',
    List.any_eq_false, beq_iff_eq] at hx
  intro hEq
  exact hx.2 t ht (hEq.symm)

/-- Claim C6 as amended: every transaction selected for the block is
removed (by id) from the global pool and from every miner's held set,
but the winning coalition's own `transaction_pool` is left unchanged by
`handle_block_found` (it is only rebuilt from the members' sets at the
next aggregation step). -/
theorem claim_C6_block_tx_removal (st : EngineTxState) (t : Tx)
    (ht : t ∈ select_transactions_for_block st.coalitionPool
      TRANSACTIONS_PER_BLOCK_I) :
    (∀ g ∈ (handle_block_found st).globalPool, g.tx_id ≠ t.tx_id) ∧
    (∀ held ∈ (handle_block_found st).minerTxs, ∀ x ∈ held, x.tx_id ≠ t.tx_id) ∧
    (handle_block_found st).coalitionPool = st.coalitionPool := by
  refine ⟨?_, ?_, rfl⟩
  · intro g hg
    exact clear_transactions_removes _ st.globalPool t ht g hg
  · intro held hheld x hx
    simp only [handle_block_found, List.mem_map] at hheld
    obtain ⟨orig, _, rfl⟩ := hheld
    exact clear_transactions_removes _ orig t ht x hx

/-- Witness for the amended C6 at the concrete state. -/
theorem claim_C6_witness :
    ((⟨1, 5⟩ : Tx) ∈ select_transactions_for_block sampleTxState.coalitionPool
      TRANSACTIONS_PER_BLOCK_I) ∧
    ((∀ g ∈ (handle_block_found sampleTxState).globalPool, g.tx_id ≠ 1) ∧
     (∀ held ∈ (handle_block_found sampleTxState).minerTxs,
        ∀ x ∈ held, x.tx_id ≠ 1) ∧
     (handle_block_found sampleTxState).coalitionPool
        = sampleTxState.coalitionPool) :=
  ⟨by norm_num [select_transactions_for_block, sortByFeeDesc, insertByFeeDesc,
      sampleTxState, TRANSACTIONS_PER_BLOCK_I],
   claim_C6_block_tx_removal sampleTxState ⟨1, 5⟩
     (by norm_num [select_transactions_for_block, sortByFeeDesc, insertByFeeDesc,
       sampleTxState, TRANSACTIONS_PER_BLOCK_I])⟩

/-! ## C8: block-finder guards and weighted selection -/

/-- The weighted choice never selects an entry of zero (or negative)
weight: a pick at index `i` needs the draw to fall strictly inside that
entry's cumulative-weight interval. -/
theorem choicesAux_pos_weight (ws : List ℚ) :
    ∀ (r : ℚ) (i : ℕ), 0 ≤ r → choicesAux ws r = some i →
      ∃ w, ws[i]? = some w ∧ 0 < w := by
  induction ws with
  | nil =>
    intro r i _ h
    simp [choicesAux] at h
  | cons w ws ih =>
    intro r i hr h
    rw [choicesAux] at h
    by_cases hlt : r < w
    · rw [if_pos hlt] at h
      injection h with h0
      subst h0
      exact ⟨w, by simp, lt_of_le_of_lt hr hlt⟩
    · rw [if_neg hlt] at h
      obtain ⟨j, hj, rfl⟩ := Option.map_eq_some'.mp h
      have hrw : 0 ≤ r - w := by linarith [not_lt.mp hlt]
      obtain ⟨w', hw', hpos⟩ := ih (r - w) j hrw hj
      exact ⟨w', by simpa using hw', hpos⟩

/-- Claim C8: `get_block_finder` returns `None` whenever the total
network hashrate is non-positive, the difficulty is non-positive, the
coalition list is empty, or the sum of effective hashrates is zero;
and when it returns a winner, the winner is picked by the weighted
choice over effective hashrates, so the coalition at the returned
index has strictly positive effective hashrate. -/
theorem claim_C8_block_finder (coalitions : List CoalW)
    (total_network_hashrate : ℚ) (difficulty : ℤ) (blockFoundDraw : Bool)
    (r : ℚ) (i : ℕ) :
    ((total_network_hashrate ≤ 0 ∨ difficulty ≤ 0 ∨ coalitions = [] ∨
        (coalitions.map get_effective_hashrate).sum = 0) →
      get_block_finder coalitions total_network_hashrate difficulty
        blockFoundDraw r = none) ∧
    (0 ≤ r →
      get_block_finder coalitions total_network_hashrate difficulty
        blockFoundDraw r = some i →
      ∃ w, (coalitions.map get_effective_hashrate)[i]? = some w ∧ 0 < w) := by
  constructor
  · intro h
    unfold get_block_finder
    by_cases h1 : total_network_hashrate ≤ 0 ∨ difficulty ≤ 0
    · rw [if_pos h1]
    · rw [if_neg h1]
      have h3 : coalitions = [] ∨ (coalitions.map get_effective_hashrate).sum = 0 := by
        rcases h with h | h | h | h
        · exact absurd (Or.inl h) h1
        · exact absurd (Or.inr h) h1
        · exact Or.inl h
        · exact Or.inr h
      by_cases h2 : blockFoundDraw
      · simp only [h2, not_true_eq_false, if_false]
        rw [if_pos h3]
      · simp [h2]
  · intro hr hsome
    unfold get_block_finder at hsome
    by_cases h1 : total_network_hashrate ≤ 0 ∨ difficulty ≤ 0
    · rw [if_pos h1] at hsome
      exact absurd hsome (by simp)
    · rw [if_neg h1] at hsome
      by_cases h2 : blockFoundDraw
      · simp only [h2, not_true_eq_false, if_false] at hsome
        by_cases h3 : coalitions = [] ∨ (coalitions.map get_effective_hashrate).sum = 0
        · rw [if_pos h3] at hsome
          exact absurd hsome (by simp)
        · rw [if_neg h3] at hsome
          exact choicesAux_pos_weight (coalitions.map get_effective_hashrate) r i
            hr hsome
      · simp [h2] at hsome

/-- Witness for C8: the `None` guard at an empty coalition list, and a
weighted pick that lands on the second coalition (the first has zero
effective hashrate and cannot win). -/
theorem claim_C8_witness :
    (get_block_finder [] 5 1 true 3 = none) ∧
    ((0:ℚ) ≤ 3 ∧
      ∃ w, (([⟨0, 0⟩, ⟨5, 0⟩] : List CoalW).map get_effective_hashrate)[1]?
        = some w ∧ 0 < w) := by
  constructor
  · exact (claim_C8_block_finder [] 5 1 true 3 0).1 (Or.inr (Or.inr (Or.inl rfl)))
  · refine ⟨by norm_num, ?_⟩
    refine (claim_C8_block_finder [⟨0, 0⟩, ⟨5, 0⟩] 5 1 true 3 1).2 (by norm_num) ?_
    have hne : ¬ (([⟨0, 0⟩, ⟨5, 0⟩] : List CoalW) = [] ∨
        (([⟨0, 0⟩, ⟨5, 0⟩] : List CoalW).map get_effective_hashrate).sum = 0) := by
      push_neg
      exact ⟨by simp, by norm_num [get_effective_hashrate]⟩
    unfold get_block_finder
    rw [if_neg (by norm_num), if_neg (by simp), if_neg hne]
    norm_num [get_effective_hashrate, choicesAux]
